import Mathlib

/-!
Shallow embedding of the ACPC transform kernel of `src/ACPC/ACPC.py`
(class `ACPCLogic`, methods `get_acpc_points` and `get_acpc_transformation`).

The numerical code works on numpy 3-vectors; here the scalars live in an
arbitrary linear ordered field `F` (exact arithmetic), and the square root
used by `np.linalg.norm` is passed as an explicit function `sqrt : F → F`,
since a Euclidean norm is irrational in general.  Theorems that depend on
the norm being a genuine square root state that property of `sqrt` at the
two vectors where the code takes a norm, and witnesses instantiate `F := ℚ`
with `ratSqrt`, which is exact on perfect squares.
-/

namespace ACPC

/-- A 3-vector of scalars, the embedding of a numpy length-3 array
(RAS coordinates of a point). -/
structure Vec3 (F : Type) where
  x : F
  y : F
  z : F
deriving DecidableEq

variable {F : Type} [LinearOrderedField F]

/-- Componentwise addition, `a + b` on numpy arrays. -/
def vadd (a b : Vec3 F) : Vec3 F := ⟨a.x + b.x, a.y + b.y, a.z + b.z⟩

/-- Componentwise subtraction, `a - b` on numpy arrays. -/
def vsub (a b : Vec3 F) : Vec3 F := ⟨a.x - b.x, a.y - b.y, a.z - b.z⟩

/-- Componentwise negation, `-a` on numpy arrays. -/
def vneg (a : Vec3 F) : Vec3 F := ⟨-a.x, -a.y, -a.z⟩

/-- Division of a vector by a scalar, `v / s` on numpy arrays. -/
def vdiv (v : Vec3 F) (s : F) : Vec3 F := ⟨v.x / s, v.y / s, v.z / s⟩

/-- Componentwise absolute value, `np.abs`. -/
def vabs (v : Vec3 F) : Vec3 F := ⟨|v.x|, |v.y|, |v.z|⟩

/-- Dot product of two 3-vectors, `np.dot` on vectors. -/
def dot (a b : Vec3 F) : F := a.x * b.x + a.y * b.y + a.z * b.z

/-- Cross product of two 3-vectors, `np.cross`. -/
def cross (a b : Vec3 F) : Vec3 F :=
  ⟨a.y * b.z - a.z * b.y, a.z * b.x - a.x * b.z, a.x * b.y - a.y * b.x⟩

/-- Euclidean norm `np.linalg.norm v = sqrt (v ∙ v)`, with the square root
function passed explicitly. -/
def norm3 (sqrt : F → F) (v : Vec3 F) : F := sqrt (dot v v)

/-- Matrix-times-vector for a 3×3 matrix given by its three rows,
`np.dot(rotation, v)` where `rotation = np.vstack [xAxis, yAxis, zAxis]`. -/
def matVec (r0 r1 r2 v : Vec3 F) : Vec3 F := ⟨dot r0 v, dot r1 v, dot r2 v⟩

/-- A 4×4 matrix of scalars, the embedding of the numpy array the kernel
returns (entry `mij` is row `i`, column `j`). -/
structure Mat4 (F : Type) where
  m00 : F
  m01 : F
  m02 : F
  m03 : F
  m10 : F
  m11 : F
  m12 : F
  m13 : F
  m20 : F
  m21 : F
  m22 : F
  m23 : F
  m30 : F
  m31 : F
  m32 : F
  m33 : F
deriving DecidableEq

/-- The 4×4 identity matrix, `np.eye(4)`. -/
def eye4 : Mat4 F :=
  ⟨1, 0, 0, 0,
   0, 1, 0, 0,
   0, 0, 1, 0,
   0, 0, 0, 1⟩

/-- Row 0 of the rotation block of a 4×4 matrix. -/
def row0 (m : Mat4 F) : Vec3 F := ⟨m.m00, m.m01, m.m02⟩

/-- Row 1 of the rotation block of a 4×4 matrix. -/
def row1 (m : Mat4 F) : Vec3 F := ⟨m.m10, m.m11, m.m12⟩

/-- Row 2 of the rotation block of a 4×4 matrix. -/
def row2 (m : Mat4 F) : Vec3 F := ⟨m.m20, m.m21, m.m22⟩

/-- The translation column `matrix[:3, 3]` of a 4×4 matrix. -/
def translCol (m : Mat4 F) : Vec3 F := ⟨m.m03, m.m13, m.m23⟩

/-- The bottom row `matrix[3, :]` of a 4×4 matrix. -/
def bottomRow (m : Mat4 F) : Vec3 F × F := (⟨m.m30, m.m31, m.m32⟩, m.m33)

/-- Apply a 4×4 homogeneous matrix to a 3-point `p` (i.e. multiply by
`(p.x, p.y, p.z, 1)` and keep the first three coordinates): rotation block
times `p`, plus the translation column. -/
def applyPoint (m : Mat4 F) (p : Vec3 F) : Vec3 F :=
  ⟨m.m00 * p.x + m.m01 * p.y + m.m02 * p.z + m.m03,
   m.m10 * p.x + m.m11 * p.y + m.m12 * p.z + m.m13,
   m.m20 * p.x + m.m21 * p.y + m.m22 * p.z + m.m23⟩

/-- An MRML markups line node, reduced to the two pieces of data
`get_acpc_points` reads: `GetLineStartPosition()` and `GetLineEndPosition()`. -/
structure Line (F : Type) where
  lineStartPosition : Vec3 F
  lineEndPosition : Vec3 F
deriving DecidableEq

/-- The same line with its two stored endpoints exchanged. -/
def swapLine (l : Line F) : Line F := ⟨l.lineEndPosition, l.lineStartPosition⟩

/-- Embedding of `ACPCLogic.get_acpc_points`: the endpoint with the larger
anterior (Y, index 1) coordinate is returned as AC, the other as PC. -/
def get_acpc_points (l : Line F) : Vec3 F × Vec3 F :=
  if l.lineStartPosition.y > l.lineEndPosition.y then
    (l.lineStartPosition, l.lineEndPosition)
  else
    (l.lineEndPosition, l.lineStartPosition)

/-- Embedding of `ACPCLogic.get_acpc_transformation`.  Mirrors the source:
`pcAc = ac - pc`; `yAxis = pcAc / norm(pcAc)`; `acIhDir = abs(ih - ac)`;
`xAxis = cross(yAxis, acIhDir)` then normalized; `zAxis = cross(xAxis, yAxis)`;
the centering point is the midpoint, AC or PC according to `center_on`, any
other value raising `ValueError`; `translation = -rotation ∙ center`; the
matrix is `eye(4)` with the rotation block and translation column overwritten. -/
def get_acpc_transformation (sqrt : F → F) (ac pc ih : Vec3 F)
    (center_on : String) : Except String (Mat4 F) :=
  let pcAc := vsub ac pc
  let yAxis := vdiv pcAc (norm3 sqrt pcAc)
  let acIhDir := vabs (vsub ih ac)
  let xAxis0 := cross yAxis acIhDir
  let xAxis := vdiv xAxis0 (norm3 sqrt xAxis0)
  let zAxis := cross xAxis yAxis
  match (if center_on = "MC" then some (vdiv (vadd ac pc) 2)
         else if center_on = "AC" then some ac
         else if center_on = "PC" then some pc
         else none) with
  | none => Except.error ("center_on must be MC, AC, or PC")
  | some center =>
      let t := vneg (matVec xAxis yAxis zAxis center)
      Except.ok { eye4 with
        m00 := xAxis.x, m01 := xAxis.y, m02 := xAxis.z, m03 := t.x,
        m10 := yAxis.x, m11 := yAxis.y, m12 := yAxis.z, m13 := t.y,
        m20 := zAxis.x, m21 := zAxis.y, m22 := zAxis.z, m23 := t.z }

/-- Whether an `Except` result is the error case (a raised exception). -/
def isError : Except String (Mat4 F) → Bool
  | Except.error _ => true
  | Except.ok _ => false

/-- Exact rational square root: correct whenever the numerator and the
denominator are perfect squares (used to instantiate `sqrt` in witnesses). -/
def ratSqrt (q : ℚ) : ℚ := (Nat.sqrt q.num.toNat : ℚ) / (Nat.sqrt q.den : ℚ)

/-- The secondary-axis vector before normalization:
`cross(yAxis, abs(ih - ac))` with `yAxis = normalize(ac - pc)`. -/
def xVec (sqrt : F → F) (ac pc ih : Vec3 F) : Vec3 F :=
  cross (vdiv (vsub ac pc) (norm3 sqrt (vsub ac pc))) (vabs (vsub ih ac))

/-- The matrix the kernel builds once the centering point `center` is
resolved; `get_acpc_transformation` returns `Except.ok` of this. -/
def acpcMatrix (sqrt : F → F) (ac pc ih center : Vec3 F) : Mat4 F :=
  let pcAc := vsub ac pc
  let yAxis := vdiv pcAc (norm3 sqrt pcAc)
  let acIhDir := vabs (vsub ih ac)
  let xAxis0 := cross yAxis acIhDir
  let xAxis := vdiv xAxis0 (norm3 sqrt xAxis0)
  let zAxis := cross xAxis yAxis
  let t := vneg (matVec xAxis yAxis zAxis center)
  { eye4 with
    m00 := xAxis.x, m01 := xAxis.y, m02 := xAxis.z, m03 := t.x,
    m10 := yAxis.x, m11 := yAxis.y, m12 := yAxis.z, m13 := t.y,
    m20 := zAxis.x, m21 := zAxis.y, m22 := zAxis.z, m23 := t.z }

lemma get_mc (sqrt : F → F) (ac pc ih : Vec3 F) :
    get_acpc_transformation sqrt ac pc ih ("MC") =
      Except.ok (acpcMatrix sqrt ac pc ih (vdiv (vadd ac pc) 2)) := rfl

lemma get_ac (sqrt : F → F) (ac pc ih : Vec3 F) :
    get_acpc_transformation sqrt ac pc ih ("AC") =
      Except.ok (acpcMatrix sqrt ac pc ih ac) := rfl

lemma get_pc (sqrt : F → F) (ac pc ih : Vec3 F) :
    get_acpc_transformation sqrt ac pc ih ("PC") =
      Except.ok (acpcMatrix sqrt ac pc ih pc) := rfl

lemma get_err (sqrt : F → F) (ac pc ih : Vec3 F) (c : String)
    (hc : ¬(c = "MC" ∨ c = "AC" ∨ c = "PC")) :
    get_acpc_transformation sqrt ac pc ih c =
      Except.error ("center_on must be MC, AC, or PC") := by
  push_neg at hc
  obtain ⟨h1, h2, h3⟩ := hc
  simp [get_acpc_transformation, h1, h2, h3]

lemma ok_cases (sqrt : F → F) (ac pc ih : Vec3 F) (c : String) (m : Mat4 F)
    (hm : get_acpc_transformation sqrt ac pc ih c = Except.ok m) :
    m = acpcMatrix sqrt ac pc ih (vdiv (vadd ac pc) 2) ∨
    m = acpcMatrix sqrt ac pc ih ac ∨
    m = acpcMatrix sqrt ac pc ih pc := by
  by_cases h1 : c = "MC"
  · subst h1
    rw [get_mc] at hm
    exact Or.inl (Except.ok.inj hm).symm
  · by_cases h2 : c = "AC"
    · subst h2
      rw [get_ac] at hm
      exact Or.inr (Or.inl (Except.ok.inj hm).symm)
    · by_cases h3 : c = "PC"
      · subst h3
        rw [get_pc] at hm
        exact Or.inr (Or.inr (Except.ok.inj hm).symm)
      · rw [get_err sqrt ac pc ih c (by tauto)] at hm
        cases hm

lemma row0_acpcMatrix (sqrt : F → F) (ac pc ih center : Vec3 F) :
    row0 (acpcMatrix sqrt ac pc ih center) =
      vdiv (xVec sqrt ac pc ih) (norm3 sqrt (xVec sqrt ac pc ih)) := rfl

lemma row1_acpcMatrix (sqrt : F → F) (ac pc ih center : Vec3 F) :
    row1 (acpcMatrix sqrt ac pc ih center) =
      vdiv (vsub ac pc) (norm3 sqrt (vsub ac pc)) := rfl

lemma row2_acpcMatrix (sqrt : F → F) (ac pc ih center : Vec3 F) :
    row2 (acpcMatrix sqrt ac pc ih center) =
      cross (row0 (acpcMatrix sqrt ac pc ih center))
        (row1 (acpcMatrix sqrt ac pc ih center)) := rfl

lemma bottomRow_acpcMatrix (sqrt : F → F) (ac pc ih center : Vec3 F) :
    bottomRow (acpcMatrix sqrt ac pc ih center) = (⟨0, 0, 0⟩, 1) := rfl

lemma translCol_acpcMatrix (sqrt : F → F) (ac pc ih center : Vec3 F) :
    translCol (acpcMatrix sqrt ac pc ih center) =
      vneg (matVec (row0 (acpcMatrix sqrt ac pc ih center))
        (row1 (acpcMatrix sqrt ac pc ih center))
        (row2 (acpcMatrix sqrt ac pc ih center)) center) := rfl

lemma dot_comm (u v : Vec3 F) : dot u v = dot v u := by
  simp only [dot]
  ring

lemma dot_cross_left (u v : Vec3 F) : dot (cross u v) u = 0 := by
  simp only [dot, cross]
  ring

lemma dot_cross_right (u v : Vec3 F) : dot (cross u v) v = 0 := by
  simp only [dot, cross]
  ring

lemma dot_cross_self (u v : Vec3 F) :
    dot (cross u v) (cross u v) = dot u u * dot v v - dot u v * dot u v := by
  simp only [dot, cross]
  ring

lemma dot_vdiv_left (v : Vec3 F) (s : F) (w : Vec3 F) :
    dot (vdiv v s) w = dot v w / s := by
  simp only [dot, vdiv]
  ring

lemma dot_vdiv_right (w v : Vec3 F) (s : F) :
    dot w (vdiv v s) = dot w v / s := by
  simp only [dot, vdiv]
  ring

lemma cross_vdiv_left (u : Vec3 F) (s : F) (v : Vec3 F) :
    cross (vdiv u s) v = vdiv (cross u v) s := by
  simp only [cross, vdiv, Vec3.mk.injEq]
  refine ⟨by ring, by ring, by ring⟩

lemma cross_vdiv_right (u v : Vec3 F) (s : F) :
    cross u (vdiv v s) = vdiv (cross u v) s := by
  simp only [cross, vdiv, Vec3.mk.injEq]
  refine ⟨by ring, by ring, by ring⟩

lemma ratSqrt_natCast (n k : ℕ) (hk : k * k = n) : ratSqrt (n : ℚ) = k := by
  rw [ratSqrt, Rat.num_natCast, Rat.den_natCast, Int.toNat_natCast, Nat.sqrt_one, ← hk,
    Nat.sqrt_eq]
  simp

lemma ratSqrt_400 : ratSqrt 400 = 20 := by
  have h := ratSqrt_natCast 400 20 (by norm_num)
  norm_num at h
  exact h

lemma ratSqrt_100 : ratSqrt 100 = 10 := by
  have h := ratSqrt_natCast 100 10 (by norm_num)
  norm_num at h
  exact h

/-- Claim C1, counterexample: at the degenerate input `ac = pc = (0,0,0)`,
`ih = (1,0,0)`, `center_on = "MC"`, `get_acpc_transformation` does not fail:
it returns `Except.ok` of a matrix, so no `DegenerateInputError` (or any
exception) is raised, contrary to the claim. -/
theorem c1_counterexample :
    isError (get_acpc_transformation ratSqrt (⟨0, 0, 0⟩ : Vec3 ℚ)
      ⟨0, 0, 0⟩ ⟨1, 0, 0⟩ ("MC")) = false := by
  rw [get_mc]
  rfl

/-- Claim C1, amended: `get_acpc_transformation` performs no degeneracy check
at all.  For every input — including `ac = pc` and `ih` collinear with the
`ac`–`pc` line — it returns a matrix whenever `center_on` is recognized; the
division by the zero norm is silent (in numpy it yields non-finite entries,
not an exception). -/
theorem c1_no_degeneracy_check (sqrt : F → F) (ac pc ih : Vec3 F) (c : String)
    (hc : c = "MC" ∨ c = "AC" ∨ c = "PC") :
    isError (get_acpc_transformation sqrt ac pc ih c) = false := by
  rcases hc with h | h | h
  · subst h
    rw [get_mc]
    rfl
  · subst h
    rw [get_ac]
    rfl
  · subst h
    rw [get_pc]
    rfl

/-- Witness for the amended Claim C1, at the degenerate input
`ac = pc = (1,2,3)` with `center_on = "AC"`. -/
theorem c1_no_degeneracy_check_witness :
    isError (get_acpc_transformation ratSqrt (⟨1, 2, 3⟩ : Vec3 ℚ)
      ⟨1, 2, 3⟩ ⟨1, 2, 3⟩ ("AC")) = false :=
  c1_no_degeneracy_check ratSqrt ⟨1, 2, 3⟩ ⟨1, 2, 3⟩ ⟨1, 2, 3⟩ ("AC")
    (Or.inr (Or.inl rfl))

/-- Claim C2: `get_acpc_transformation` raises the invalid-argument
`ValueError` exactly when `center_on` is not one of `"MC"`, `"AC"`, `"PC"`;
for a recognized `center_on` it returns a matrix without raising. -/
theorem c2_center_on_validation (sqrt : F → F) (ac pc ih : Vec3 F) (c : String) :
    isError (get_acpc_transformation sqrt ac pc ih c) = true ↔
      ¬(c = "MC" ∨ c = "AC" ∨ c = "PC") := by
  constructor
  · intro h hc
    rcases hc with h1 | h1 | h1
    · subst h1
      rw [get_mc] at h
      cases h
    · subst h1
      rw [get_ac] at h
      cases h
    · subst h1
      rw [get_pc] at h
      cases h
  · intro hc
    rw [get_err sqrt ac pc ih c hc]
    rfl

/-- Claim C8: `get_acpc_points` always returns one of the two orderings of
the stored endpoints (it is a total function, never failing), and when the
two anterior (Y) coordinates differ, the returned `ac` is the endpoint with
the strictly larger Y coordinate and `pc` is the other. -/
theorem c8_classification (l : Line F) :
    (get_acpc_points l = (l.lineStartPosition, l.lineEndPosition) ∨
      get_acpc_points l = (l.lineEndPosition, l.lineStartPosition)) ∧
    (l.lineStartPosition.y ≠ l.lineEndPosition.y →
      (get_acpc_points l).2.y < (get_acpc_points l).1.y) := by
  unfold get_acpc_points
  by_cases h : l.lineStartPosition.y > l.lineEndPosition.y
  · rw [if_pos h]
    exact ⟨Or.inl rfl, fun _ => h⟩
  · rw [if_neg h]
    exact ⟨Or.inr rfl, fun hne => lt_of_le_of_ne (not_lt.mp h) hne⟩

/-- Witness for Claim C8: on the line from `(0,1,2)` to `(3,4,5)` the
returned AC point has the strictly larger Y coordinate. -/
theorem c8_classification_witness :
    (get_acpc_points (⟨⟨0, 1, 2⟩, ⟨3, 4, 5⟩⟩ : Line ℚ)).2.y <
      (get_acpc_points (⟨⟨0, 1, 2⟩, ⟨3, 4, 5⟩⟩ : Line ℚ)).1.y :=
  (c8_classification ⟨⟨0, 1, 2⟩, ⟨3, 4, 5⟩⟩).2 (by norm_num)

/-- Claim C10: when the two endpoints have exactly equal Y coordinates, the
strict comparison is false, so `get_acpc_points` returns the line end
position as AC and the line start position as PC; no error is raised. -/
theorem c10_tie_break (l : Line F)
    (h : l.lineStartPosition.y = l.lineEndPosition.y) :
    get_acpc_points l = (l.lineEndPosition, l.lineStartPosition) := by
  unfold get_acpc_points
  rw [if_neg]
  rw [h]
  exact lt_irrefl _

/-- Witness for Claim C10: endpoints `(0,1,2)` and `(5,1,7)` share `Y = 1`,
and the end position is classified as AC. -/
theorem c10_tie_break_witness :
    get_acpc_points (⟨⟨0, 1, 2⟩, ⟨5, 1, 7⟩⟩ : Line ℚ) = (⟨5, 1, 7⟩, ⟨0, 1, 2⟩) :=
  c10_tie_break ⟨⟨0, 1, 2⟩, ⟨5, 1, 7⟩⟩ rfl

/-- AC point of the worked concrete scenario of the spec. -/
def wAC : Vec3 ℚ := ⟨0, 10, 0⟩

/-- PC point of the worked concrete scenario of the spec. -/
def wPC : Vec3 ℚ := ⟨0, -10, 0⟩

/-- Midline reference point of the worked concrete scenario of the spec. -/
def wIH : Vec3 ℚ := ⟨10, 0, 0⟩

/-- Mid-commissural centering point of the concrete scenario. -/
def wMC : Vec3 ℚ := vdiv (vadd wAC wPC) 2

/-- The matrix the kernel returns on the concrete scenario (centered on MC). -/
def wMat : Mat4 ℚ := acpcMatrix ratSqrt wAC wPC wIH wMC

/-- Claim C3: whenever `get_acpc_transformation` returns a matrix, its
rotation rows are exactly `y = normalize (ac - pc)` (row 1),
`x = normalize (cross y d)` with `d = abs (ih - ac)` componentwise (row 0),
`z = cross x y` (row 2), and the bottom row of the 4×4 matrix is
`(0, 0, 0, 1)`. -/
theorem c3_rotation_rows (sqrt : F → F) (ac pc ih : Vec3 F) (c : String)
    (m : Mat4 F)
    (hm : get_acpc_transformation sqrt ac pc ih c = Except.ok m) :
    row1 m = vdiv (vsub ac pc) (norm3 sqrt (vsub ac pc)) ∧
    row0 m =
      vdiv (cross (vdiv (vsub ac pc) (norm3 sqrt (vsub ac pc)))
          (vabs (vsub ih ac)))
        (norm3 sqrt (cross (vdiv (vsub ac pc) (norm3 sqrt (vsub ac pc)))
          (vabs (vsub ih ac)))) ∧
    row2 m = cross (row0 m) (row1 m) ∧
    bottomRow m = (⟨0, 0, 0⟩, 1) := by
  rcases ok_cases sqrt ac pc ih c m hm with h | h | h <;> subst h <;>
    exact ⟨rfl, rfl, rfl, rfl⟩

/-- Witness for Claim C3 on the concrete scenario input. -/
theorem c3_rotation_rows_witness :
    row1 wMat = vdiv (vsub wAC wPC) (norm3 ratSqrt (vsub wAC wPC)) ∧
    row0 wMat =
      vdiv (cross (vdiv (vsub wAC wPC) (norm3 ratSqrt (vsub wAC wPC)))
          (vabs (vsub wIH wAC)))
        (norm3 ratSqrt (cross (vdiv (vsub wAC wPC) (norm3 ratSqrt (vsub wAC wPC)))
          (vabs (vsub wIH wAC)))) ∧
    row2 wMat = cross (row0 wMat) (row1 wMat) ∧
    bottomRow wMat = (⟨0, 0, 0⟩, 1) :=
  c3_rotation_rows ratSqrt wAC wPC wIH ("MC") wMat (get_mc ratSqrt wAC wPC wIH)

/-- Claim C4: whenever the kernel returns a matrix, applying it to the
selected centering point yields the origin `(0,0,0)`: the midpoint
`(ac+pc)/2` for `center_on = "MC"`, `ac` for `"AC"`, `pc` for `"PC"`. -/
theorem c4_centering (sqrt : F → F) (ac pc ih : Vec3 F) :
    (∀ m : Mat4 F,
      get_acpc_transformation sqrt ac pc ih ("MC") = Except.ok m →
        applyPoint m (vdiv (vadd ac pc) 2) = ⟨0, 0, 0⟩) ∧
    (∀ m : Mat4 F,
      get_acpc_transformation sqrt ac pc ih ("AC") = Except.ok m →
        applyPoint m ac = ⟨0, 0, 0⟩) ∧
    (∀ m : Mat4 F,
      get_acpc_transformation sqrt ac pc ih ("PC") = Except.ok m →
        applyPoint m pc = ⟨0, 0, 0⟩) := by
  have key : ∀ center : Vec3 F,
      applyPoint (acpcMatrix sqrt ac pc ih center) center = ⟨0, 0, 0⟩ := by
    intro center
    simp only [applyPoint, acpcMatrix, eye4, matVec, vneg, dot, Vec3.mk.injEq]
    refine ⟨by ring, by ring, by ring⟩
  refine ⟨fun m hm => ?_, fun m hm => ?_, fun m hm => ?_⟩
  · rw [get_mc] at hm
    rw [← Except.ok.inj hm]
    exact key _
  · rw [get_ac] at hm
    rw [← Except.ok.inj hm]
    exact key _
  · rw [get_pc] at hm
    rw [← Except.ok.inj hm]
    exact key _

/-- Witness for Claim C4: on the concrete scenario, the returned
MC-centered matrix maps the mid-commissural point to the origin. -/
theorem c4_centering_witness :
    applyPoint wMat (vdiv (vadd wAC wPC) 2) = ⟨0, 0, 0⟩ :=
  (c4_centering ratSqrt wAC wPC wIH).1 wMat (get_mc ratSqrt wAC wPC wIH)

/-- Claim C9: on the concrete scenario AC = (0,10,0), PC = (0,-10,0),
IH = (10,0,0), `center_on = "MC"`, the kernel returns a matrix that maps the
origin to itself, whose second rotation row is exactly (0,1,0), and whose
translation column is exactly (0,0,0). -/
theorem c9_concrete_scenario :
    get_acpc_transformation ratSqrt wAC wPC wIH ("MC") = Except.ok wMat ∧
    applyPoint wMat ⟨0, 0, 0⟩ = ⟨0, 0, 0⟩ ∧
    row1 wMat = ⟨0, 1, 0⟩ ∧
    translCol wMat = ⟨0, 0, 0⟩ := by
  refine ⟨rfl, ?_, ?_, ?_⟩
  · norm_num [wMat, wAC, wPC, wIH, wMC, acpcMatrix, applyPoint, eye4, vsub,
      vadd, vdiv, vabs, vneg, cross, dot, norm3, matVec, ratSqrt_400, ratSqrt_100]
  · norm_num [wMat, wAC, wPC, wIH, wMC, acpcMatrix, row1, eye4, vsub,
      vadd, vdiv, vabs, vneg, cross, dot, norm3, matVec, ratSqrt_400, ratSqrt_100]
  · norm_num [wMat, wAC, wPC, wIH, wMC, acpcMatrix, translCol, eye4, vsub,
      vadd, vdiv, vabs, vneg, cross, dot, norm3, matVec, ratSqrt_400, ratSqrt_100]

lemma rows_orthonormal_aux (sqrt : F → F) (ac pc ih center : Vec3 F)
    (h1 : norm3 sqrt (vsub ac pc) * norm3 sqrt (vsub ac pc) =
      dot (vsub ac pc) (vsub ac pc))
    (h1p : norm3 sqrt (vsub ac pc) ≠ 0)
    (h2 : norm3 sqrt (xVec sqrt ac pc ih) * norm3 sqrt (xVec sqrt ac pc ih) =
      dot (xVec sqrt ac pc ih) (xVec sqrt ac pc ih))
    (h2p : norm3 sqrt (xVec sqrt ac pc ih) ≠ 0) :
    dot (row0 (acpcMatrix sqrt ac pc ih center))
        (row0 (acpcMatrix sqrt ac pc ih center)) = 1 ∧
    dot (row1 (acpcMatrix sqrt ac pc ih center))
        (row1 (acpcMatrix sqrt ac pc ih center)) = 1 ∧
    dot (row2 (acpcMatrix sqrt ac pc ih center))
        (row2 (acpcMatrix sqrt ac pc ih center)) = 1 ∧
    dot (row0 (acpcMatrix sqrt ac pc ih center))
        (row1 (acpcMatrix sqrt ac pc ih center)) = 0 ∧
    dot (row0 (acpcMatrix sqrt ac pc ih center))
        (row2 (acpcMatrix sqrt ac pc ih center)) = 0 ∧
    dot (row1 (acpcMatrix sqrt ac pc ih center))
        (row2 (acpcMatrix sqrt ac pc ih center)) = 0 := by
  have hyy : dot (vdiv (vsub ac pc) (norm3 sqrt (vsub ac pc)))
      (vdiv (vsub ac pc) (norm3 sqrt (vsub ac pc))) = 1 := by
    rw [dot_vdiv_left, dot_vdiv_right, ← h1]
    field_simp
  have hxx : dot (vdiv (xVec sqrt ac pc ih) (norm3 sqrt (xVec sqrt ac pc ih)))
      (vdiv (xVec sqrt ac pc ih) (norm3 sqrt (xVec sqrt ac pc ih))) = 1 := by
    rw [dot_vdiv_left, dot_vdiv_right, ← h2]
    field_simp
  have hxy : dot (vdiv (xVec sqrt ac pc ih) (norm3 sqrt (xVec sqrt ac pc ih)))
      (vdiv (vsub ac pc) (norm3 sqrt (vsub ac pc))) = 0 := by
    rw [dot_vdiv_left]
    simp only [xVec]
    rw [dot_cross_left, zero_div]
  simp only [row0_acpcMatrix, row1_acpcMatrix, row2_acpcMatrix]
  refine ⟨hxx, hyy, ?_, hxy, ?_, ?_⟩
  · rw [dot_cross_self, hxx, hyy, hxy]
    ring
  · rw [dot_comm, dot_cross_left]
  · rw [dot_comm, dot_cross_right]

/-- Claim C5: whenever the kernel returns a matrix and the two norms taken
by the code are genuine (their square is the corresponding dot product) and
nonzero, the three rotation rows are orthonormal: each has unit squared
norm and the pairwise dot products are exactly zero. -/
theorem c5_orthonormal (sqrt : F → F) (ac pc ih : Vec3 F)
    (h1 : norm3 sqrt (vsub ac pc) * norm3 sqrt (vsub ac pc) =
      dot (vsub ac pc) (vsub ac pc))
    (h1p : norm3 sqrt (vsub ac pc) ≠ 0)
    (h2 : norm3 sqrt (xVec sqrt ac pc ih) * norm3 sqrt (xVec sqrt ac pc ih) =
      dot (xVec sqrt ac pc ih) (xVec sqrt ac pc ih))
    (h2p : norm3 sqrt (xVec sqrt ac pc ih) ≠ 0)
    (c : String) (m : Mat4 F)
    (hm : get_acpc_transformation sqrt ac pc ih c = Except.ok m) :
    dot (row0 m) (row0 m) = 1 ∧ dot (row1 m) (row1 m) = 1 ∧
    dot (row2 m) (row2 m) = 1 ∧ dot (row0 m) (row1 m) = 0 ∧
    dot (row0 m) (row2 m) = 0 ∧ dot (row1 m) (row2 m) = 0 := by
  rcases ok_cases sqrt ac pc ih c m hm with h | h | h <;> subst h <;>
    exact rows_orthonormal_aux sqrt ac pc ih _ h1 h1p h2 h2p

/-- Witness for Claim C5 on the concrete scenario input. -/
theorem c5_orthonormal_witness :
    dot (row0 wMat) (row0 wMat) = 1 ∧ dot (row1 wMat) (row1 wMat) = 1 ∧
    dot (row2 wMat) (row2 wMat) = 1 ∧ dot (row0 wMat) (row1 wMat) = 0 ∧
    dot (row0 wMat) (row2 wMat) = 0 ∧ dot (row1 wMat) (row2 wMat) = 0 :=
  c5_orthonormal ratSqrt wAC wPC wIH
    (by norm_num [norm3, dot, vsub, wAC, wPC, ratSqrt_400])
    (by norm_num [norm3, dot, vsub, wAC, wPC, ratSqrt_400])
    (by norm_num [norm3, dot, vsub, xVec, cross, vdiv, vabs, wAC, wPC, wIH,
      ratSqrt_400, ratSqrt_100])
    (by norm_num [norm3, dot, vsub, xVec, cross, vdiv, vabs, wAC, wPC, wIH,
      ratSqrt_400, ratSqrt_100])
    ("MC") wMat (get_mc ratSqrt wAC wPC wIH)

lemma axis_alignment_aux (sqrt : F → F) (ac pc ih center : Vec3 F)
    (h1 : norm3 sqrt (vsub ac pc) * norm3 sqrt (vsub ac pc) =
      dot (vsub ac pc) (vsub ac pc))
    (h1p : norm3 sqrt (vsub ac pc) ≠ 0) :
    matVec (row0 (acpcMatrix sqrt ac pc ih center))
        (row1 (acpcMatrix sqrt ac pc ih center))
        (row2 (acpcMatrix sqrt ac pc ih center)) (vsub ac pc) =
      ⟨0, norm3 sqrt (vsub ac pc), 0⟩ := by
  simp only [row0_acpcMatrix, row1_acpcMatrix, row2_acpcMatrix, matVec,
    Vec3.mk.injEq]
  refine ⟨?_, ?_, ?_⟩
  · rw [dot_vdiv_left]
    simp only [xVec]
    rw [cross_vdiv_left, dot_vdiv_left, dot_cross_left, zero_div, zero_div]
  · rw [dot_vdiv_left, ← h1]
    field_simp
  · have h3 : dot (cross (vdiv (xVec sqrt ac pc ih)
        (norm3 sqrt (xVec sqrt ac pc ih)))
        (vdiv (vsub ac pc) (norm3 sqrt (vsub ac pc))))
        (vdiv (vsub ac pc) (norm3 sqrt (vsub ac pc))) = 0 :=
      dot_cross_right _ _
    rw [dot_vdiv_right, div_eq_zero_iff] at h3
    exact h3.resolve_right h1p

/-- Claim C6: whenever the kernel returns a matrix and the norm of
`ac - pc` taken by the code is genuine and nonzero, multiplying the
rotation block by `ac - pc` yields `(0, ‖ac - pc‖, 0)`: the AC–PC
direction maps onto the new frame Y axis. -/
theorem c6_axis_alignment (sqrt : F → F) (ac pc ih : Vec3 F)
    (h1 : norm3 sqrt (vsub ac pc) * norm3 sqrt (vsub ac pc) =
      dot (vsub ac pc) (vsub ac pc))
    (h1p : norm3 sqrt (vsub ac pc) ≠ 0)
    (c : String) (m : Mat4 F)
    (hm : get_acpc_transformation sqrt ac pc ih c = Except.ok m) :
    matVec (row0 m) (row1 m) (row2 m) (vsub ac pc) =
      ⟨0, norm3 sqrt (vsub ac pc), 0⟩ := by
  rcases ok_cases sqrt ac pc ih c m hm with h | h | h <;> subst h <;>
    exact axis_alignment_aux sqrt ac pc ih _ h1 h1p

/-- Witness for Claim C6 on the concrete scenario input: the rotation block
maps AC − PC = (0,20,0) to (0, 20, 0) on the Y axis. -/
theorem c6_axis_alignment_witness :
    matVec (row0 wMat) (row1 wMat) (row2 wMat) (vsub wAC wPC) =
      ⟨0, norm3 ratSqrt (vsub wAC wPC), 0⟩ :=
  c6_axis_alignment ratSqrt wAC wPC wIH
    (by norm_num [norm3, dot, vsub, wAC, wPC, ratSqrt_400])
    (by norm_num [norm3, dot, vsub, wAC, wPC, ratSqrt_400])
    ("MC") wMat (get_mc ratSqrt wAC wPC wIH)

/-- Claim C7: for a line whose endpoints have distinct Y coordinates,
composing `get_acpc_points` with `get_acpc_transformation` yields the
identical result whether the line stores its endpoints in the original or
in the swapped order. -/
theorem c7_endpoint_order_invariance (sqrt : F → F) (l : Line F) (ih : Vec3 F)
    (c : String) (h : l.lineStartPosition.y ≠ l.lineEndPosition.y) :
    get_acpc_transformation sqrt (get_acpc_points (swapLine l)).1
        (get_acpc_points (swapLine l)).2 ih c =
      get_acpc_transformation sqrt (get_acpc_points l).1
        (get_acpc_points l).2 ih c := by
  have hpts : get_acpc_points (swapLine l) = get_acpc_points l := by
    unfold get_acpc_points swapLine
    rcases lt_trichotomy l.lineStartPosition.y l.lineEndPosition.y with hlt | heq | hgt
    · rw [if_pos hlt, if_neg (not_lt.mpr (le_of_lt hlt))]
    · exact absurd heq h
    · rw [if_neg (not_lt.mpr (le_of_lt hgt)), if_pos hgt]
  rw [hpts]

/-- Witness for Claim C7, on the line from `(0,10,0)` to `(0,-10,0)` with
`ih = (10,0,0)` and `center_on = "MC"`. -/
theorem c7_endpoint_order_invariance_witness :
    get_acpc_transformation ratSqrt
        (get_acpc_points (swapLine (⟨⟨0, 10, 0⟩, ⟨0, -10, 0⟩⟩ : Line ℚ))).1
        (get_acpc_points (swapLine (⟨⟨0, 10, 0⟩, ⟨0, -10, 0⟩⟩ : Line ℚ))).2
        ⟨10, 0, 0⟩ ("MC") =
      get_acpc_transformation ratSqrt
        (get_acpc_points (⟨⟨0, 10, 0⟩, ⟨0, -10, 0⟩⟩ : Line ℚ)).1
        (get_acpc_points (⟨⟨0, 10, 0⟩, ⟨0, -10, 0⟩⟩ : Line ℚ)).2
        ⟨10, 0, 0⟩ ("MC") :=
  c7_endpoint_order_invariance ratSqrt ⟨⟨0, 10, 0⟩, ⟨0, -10, 0⟩⟩ ⟨10, 0, 0⟩
    ("MC") (by norm_num)

end ACPC
